import Mathlib

/-!
# Verification of the index layer in `src/mongo/db/index.cpp`

Shallow embedding of the TokuDB-backed index layer: `IndexDetails::insert`,
`IndexDetails::insertPair`, `IndexDetails::deleteObject`,
`IndexDetails::keyPatternOffset`, `IndexDetails::IndexDetails` (open),
`IndexDetails::kill_idx` and `IndexSpec::reset`.

Encoded BSON objects are modelled as byte strings (`Bytes`): `objdata()` is
the string itself and `objsize()` its length.  The physical store is an
ordered transactional dictionary; we model its visible contract (put with
optional duplicate rejection, delete-any, open/create) over an association
list, and the integer return codes the C++ checks (`DB_KEYEXIST`, zero,
other).  Exceptions raised by `uassert` become a `dupKey` result, and
`verify` failures become `fatal`.
-/

set_option autoImplicit false

namespace MongoIndex

/-- A byte string: the `objdata()` of an encoded BSON object, or a raw
physical key/value handed to the storage engine as a `DBT`. -/
abbrev Bytes := List Nat

/-- `BSONObj()` — the empty BSON object `{}`: little-endian int32 size 5
followed by the EOO byte.  `objsize()` is 5, not 0. -/
def emptyBSONObj : Bytes := [5, 0, 0, 0, 0]

/-- The storage engine's duplicate-key return code (`DB_KEYEXIST`),
a fixed nonzero negative errno-style constant. -/
def DB_KEYEXIST : Int := -30995

/-- State of one physical dictionary: the live key/value pairs, as an
association list keyed by physical key bytes. -/
structure Store where
  entries : List (Bytes × Bytes)
deriving DecidableEq, Repr

/-- Whether the dictionary holds an entry with physical key `k`. -/
def Store.containsKey (s : Store) (k : Bytes) : Bool :=
  s.entries.any (fun e => e.1 = k)

/-- Insert-or-replace a binding, the effect of a successful engine put. -/
def Store.bind (s : Store) (k v : Bytes) : Store :=
  ⟨(k, v) :: s.entries.filter (fun e => e.1 ≠ k)⟩

/-- Engine `put` (consumed contract): with `DB_NOOVERWRITE` (`noOverwrite`)
set, storing a key that is already present returns `DB_KEYEXIST` and leaves
the dictionary unchanged; otherwise the binding is stored and `0` returned. -/
def Store.put (s : Store) (k v : Bytes) (noOverwrite : Bool) : Store × Int :=
  if noOverwrite && s.containsKey k then (s, DB_KEYEXIST)
  else (s.bind k v, 0)

/-- Engine `del` with `DB_DELETE_ANY` (consumed contract): removes the key
if present; a missing key is folded into success, so the return code is `0`
either way. -/
def Store.del (s : Store) (k : Bytes) : Store × Int :=
  (⟨s.entries.filter (fun e => e.1 ≠ k)⟩, 0)

/-- Outcome of one index-layer operation as seen by the caller:
success, the recoverable `uassert 16433` duplicate-key error, or a
`verify`-failure abort. -/
inductive OpResult where
  | ok
  | dupKey
  | fatal
deriving DecidableEq, Repr

/-- How `insertPair` (lines 148–155) treats the put's return code:
`uassert(16433, "key already exists in unique index", r != DB_KEYEXIST)`
raises the recoverable duplicate error, then `verify(r == 0)` makes any
other nonzero code fatal. -/
def classifyPut (r : Int) : OpResult :=
  if r = DB_KEYEXIST then .dupKey
  else if r = 0 then .ok
  else .fatal

/-- How `deleteObject` (line 174) treats the delete's return code:
`verify(r == 0)`, so any nonzero code is fatal. -/
def classifyDel (r : Int) : OpResult :=
  if r = 0 then .ok else .fatal

/-- The per-index data `IndexDetails` reads from its `_info` definition:
the `unique()`, `isIdIndex()` and `clustering()` flags, and the key
extraction `getKeysFromObject` (which delegates to `getSpec().getKeys`,
producing the `BSONObjSet` of extracted keys, here in iteration order). -/
structure IndexDetails where
  unique : Bool
  idIndex : Bool
  clustering : Bool
  getKeys : Bytes → List Bytes

/-- Mutable state the index layer touches during insert/delete: the
physical dictionary plus the catalog's per-index multikey flag. -/
structure IndexState where
  store : Store
  multikey : Bool
deriving DecidableEq, Repr

/-- `NamespaceDetails::setIndexIsMultikey` as consumed by `insert`
(catalog contract: idempotent, monotonic — it only ever sets the bit). -/
def markMultikey (st : IndexState) : IndexState :=
  { st with multikey := true }

/-- `IndexDetails::insertPair` (lines 135–156): build the physical key by
copying the key bytes and, when a primary key is supplied, appending its
bytes immediately after; put it with `DB_NOOVERWRITE` exactly when the
index is unique and overwrite was not requested; classify the return code.
Also returns the `(key, value)` pair handed to the engine, for tracing. -/
def IndexDetails.insertPair (idx : IndexDetails) (s : Store) (key : Bytes)
    (pk : Option Bytes) (val : Bytes) (overwrite : Bool) :
    Store × OpResult × (Bytes × Bytes) :=
  let buf : Bytes := key ++ pk.getD []
  let noOv : Bool := idx.unique && !overwrite
  let pr := s.put buf val noOv
  (pr.1, classifyPut pr.2, (buf, val))

/-- The loop body of `IndexDetails::insert` (lines 125–131) for one
extracted key: dispatch on the index kind — id index: no primary key,
value is the document; clustering: append the primary key, value is the
document; otherwise: append the primary key, value is the empty
`BSONObj()`. -/
def insertStep (idx : IndexDetails) (s : Store) (obj pk k : Bytes)
    (overwrite : Bool) : Store × OpResult × (Bytes × Bytes) :=
  if idx.idIndex then idx.insertPair s k none obj overwrite
  else if idx.clustering then idx.insertPair s k (some pk) obj overwrite
  else idx.insertPair s k (some pk) emptyBSONObj overwrite

/-- The per-key loop of `IndexDetails::insert` (lines 124–132): run
`insertStep` on each extracted key in order; a `dupKey` (`uassert` throw)
or `fatal` (`verify` abort) stops the loop at that key.  Returns the
store, the outcome, and the trace of pairs actually handed to the
engine's put. -/
def insertLoop (idx : IndexDetails) (obj pk : Bytes) (overwrite : Bool) :
    Store → List Bytes → Store × OpResult × List (Bytes × Bytes)
  | s, [] => (s, .ok, [])
  | s, k :: ks =>
    if (insertStep idx s obj pk k overwrite).2.1 = OpResult.ok then
      ((insertLoop idx obj pk overwrite (insertStep idx s obj pk k overwrite).1 ks).1,
       (insertLoop idx obj pk overwrite (insertStep idx s obj pk k overwrite).1 ks).2.1,
       (insertStep idx s obj pk k overwrite).2.2 ::
         (insertLoop idx obj pk overwrite (insertStep idx s obj pk k overwrite).1 ks).2.2)
    else
      ((insertStep idx s obj pk k overwrite).1,
       (insertStep idx s obj pk k overwrite).2.1,
       [(insertStep idx s obj pk k overwrite).2.2])

/-- The store obtained by running `insertStep` on each key in order,
ignoring outcomes — what the successful prefix of an insert leaves behind. -/
def applyKeys (idx : IndexDetails) (obj pk : Bytes) (overwrite : Bool) :
    Store → List Bytes → Store
  | s, [] => s
  | s, k :: ks => applyKeys idx obj pk overwrite (insertStep idx s obj pk k overwrite).1 ks

/-- `IndexDetails::insert` (lines 113–133): extract the key set from the
document; if it has more than one element mark the index multikey in the
catalog (before any put); then run the per-key put loop. -/
def IndexDetails.insert (idx : IndexDetails) (st : IndexState)
    (obj pk : Bytes) (overwrite : Bool) :
    IndexState × OpResult × List (Bytes × Bytes) :=
  let keys := idx.getKeys obj
  let st1 := if keys.length > 1 then markMultikey st else st
  let out := insertLoop idx obj pk overwrite st1.store keys
  ({ st1 with store := out.1 }, out.2.1, out.2.2)

/-- The per-key loop of `IndexDetails::deleteObject` (lines 161–175): for
each extracted key build the physical key — the key bytes followed by the
primary-key bytes unless this is the id index — and delete it with
`DB_DELETE_ANY`; `verify(r == 0)` makes any nonzero code fatal.  Returns
the store, the outcome and the trace of physical keys deleted. -/
def delLoop (idx : IndexDetails) (pk : Bytes) :
    Store → List Bytes → Store × OpResult × List Bytes
  | s, [] => (s, .ok, [])
  | s, k :: ks =>
    if classifyDel (s.del (k ++ (if idx.idIndex then [] else pk))).2 = OpResult.ok then
      ((delLoop idx pk (s.del (k ++ (if idx.idIndex then [] else pk))).1 ks).1,
       (delLoop idx pk (s.del (k ++ (if idx.idIndex then [] else pk))).1 ks).2.1,
       (k ++ (if idx.idIndex then [] else pk)) ::
         (delLoop idx pk (s.del (k ++ (if idx.idIndex then [] else pk))).1 ks).2.2)
    else
      ((s.del (k ++ (if idx.idIndex then [] else pk))).1,
       classifyDel (s.del (k ++ (if idx.idIndex then [] else pk))).2,
       [k ++ (if idx.idIndex then [] else pk)])

/-- `IndexDetails::deleteObject` (lines 158–176): recompute the extracted
key set from the document via `getKeysFromObject` (the same call `insert`
makes) and run the per-key delete loop.  The multikey flag is untouched. -/
def IndexDetails.deleteObject (idx : IndexDetails) (st : IndexState)
    (pk obj : Bytes) : IndexState × OpResult × List Bytes :=
  let keys := idx.getKeys obj
  let out := delLoop idx pk st.store keys
  ({ st with store := out.1 }, out.2.1, out.2.2)

/-- The physical `(key, value)` pair the spec prescribes for one extracted
key, per index kind: id index — the encoded extracted key alone with the
full document; clustering — extracted key followed by primary key with the
full document; ordinary — extracted key followed by primary key with the
empty value. -/
def specPhysPair (idx : IndexDetails) (obj pk k : Bytes) : Bytes × Bytes :=
  if idx.idIndex then (k, obj)
  else if idx.clustering then (k ++ pk, obj)
  else (k ++ pk, emptyBSONObj)

/-- The set of dictionaries existing in the storage environment, by name. -/
structure StoreEnv where
  dicts : List String
deriving DecidableEq, Repr

/-- The namespaces registered in the catalog (`system.namespaces`). -/
structure Catalog where
  namespaces : List String
deriving DecidableEq, Repr

/-- Modelled from the spec: `storage::db_open` (the store contract's
`open(name, keyPattern, createIfMissing)`), whose body is outside this
excerpt — it "opens (or creates) the physical dictionary".  Opening an
existing dictionary succeeds without creating; a missing dictionary is
created exactly when `mayCreate` is set, else the open fails with a
nonzero code.  Returns the environment, the return code, and whether the
call actually created the dictionary. -/
def db_open (env : StoreEnv) (name : String) (mayCreate : Bool) :
    StoreEnv × Int × Bool :=
  if env.dicts.contains name then (env, 0, false)
  else if mayCreate then (⟨name :: env.dicts⟩, 0, true)
  else (env, 2, false)

/-- Result of constructing an `IndexDetails`: the dictionary was opened, or
the `verify(r == 0)` on the open's return code aborted. -/
inductive OpenResult where
  | opened
  | fatal
deriving DecidableEq, Repr

/-- `IndexDetails::IndexDetails` (lines 35–44): open the dictionary named
by the index namespace, creating it if `may_create`; `verify(r == 0)` makes
any open failure fatal; then, whenever `may_create` was passed,
`addNewNamespaceToCatalog` registers the index namespace. -/
def openIndexDetails (env : StoreEnv) (cat : Catalog) (name : String)
    (mayCreate : Bool) : StoreEnv × Catalog × OpenResult :=
  let out := db_open env name mayCreate
  if out.2.1 ≠ 0 then (out.1, cat, .fatal)
  else if mayCreate then (out.1, ⟨name :: cat.namespaces⟩, .opened)
  else (out.1, cat, .opened)

/-- The externally visible steps a drop of an index could take. -/
inductive DropAction where
  | invalidateCachedSpec
  | deleteDictionary
  | removeMetadataEntry
  | processAbort
deriving DecidableEq, Repr

/-- `IndexDetails::kill_idx` (lines 66–102) as the sequence of externally
visible steps it performs: it invalidates the parent namespace's cached
spec (`NamespaceDetailsTransient::get(pns).deletedIndex()`), then reaches
an unconditional `::abort()` — the `dropNS` call is commented out, the
`head.setInvalid` / `removeFromSysIndexes` block is compiled out under
`#if 0`, and a process abort is not a `DBException`, so neither catch
block runs. -/
def kill_idx : List DropAction :=
  [.invalidateCachedSpec, .processAbort]

/-- The `_info` fields `IndexSpec::reset` reads: `info["key"].Obj()`'s
encoded bytes. -/
structure SpecInfo where
  key : Bytes
deriving DecidableEq, Repr

/-- The compiled spec `IndexSpec::reset` produces on success. -/
structure IndexSpec where
  info : SpecInfo
  keyPattern : Bytes
deriving DecidableEq, Repr

/-- `IndexSpec::reset` (lines 192–200): take the key pattern from the
definition's `key` field; if its `objsize()` is 0, `verify(false)` aborts
(`none`); otherwise `_init()` completes the compiled spec. -/
def IndexSpec.reset (info : SpecInfo) : Option IndexSpec :=
  let kp := info.key
  if kp.length = 0 then none
  else some ⟨info, kp⟩

/-- `IndexDetails::keyPatternOffset`'s loop (lines 51–61): walk the key
pattern's field names with a counter, returning the counter at the first
field equal to `key`, and `-1` after the last field. -/
def keyPatternOffsetAux (key : String) : List String → Nat → Int
  | [], _ => -1
  | f :: fs, n => if key = f then (n : Int) else keyPatternOffsetAux key fs (n + 1)

/-- `IndexDetails::keyPatternOffset` (lines 51–61): linear scan of the key
pattern field names starting the counter at 0. -/
def keyPatternOffset (fields : List String) (key : String) : Int :=
  keyPatternOffsetAux key fields 0

/-! ## Helper lemmas -/

lemma classifyPut_zero : classifyPut 0 = OpResult.ok := by decide

lemma classifyPut_keyexist : classifyPut DB_KEYEXIST = OpResult.dupKey := by decide

/-- One engine put either succeeds, or rejects a duplicate and leaves the
dictionary untouched. -/
lemma insertPair_dichotomy (idx : IndexDetails) (s : Store) (key : Bytes)
    (pk : Option Bytes) (val : Bytes) (ow : Bool) :
    (idx.insertPair s key pk val ow).2.1 = OpResult.ok ∨
      ((idx.insertPair s key pk val ow).2.1 = OpResult.dupKey ∧
        (idx.insertPair s key pk val ow).1 = s) := by
  by_cases h : ((idx.unique && !ow) && s.containsKey (key ++ pk.getD [])) = true
  · right
    constructor
    · simp [IndexDetails.insertPair, Store.put, h, classifyPut_keyexist]
    · simp [IndexDetails.insertPair, Store.put, h]
  · left
    simp [IndexDetails.insertPair, Store.put, h, classifyPut_zero]

lemma insertStep_dichotomy (idx : IndexDetails) (s : Store) (obj pk k : Bytes)
    (ow : Bool) :
    (insertStep idx s obj pk k ow).2.1 = OpResult.ok ∨
      ((insertStep idx s obj pk k ow).2.1 = OpResult.dupKey ∧
        (insertStep idx s obj pk k ow).1 = s) := by
  unfold insertStep
  split
  · exact insertPair_dichotomy ..
  · split
    · exact insertPair_dichotomy ..
    · exact insertPair_dichotomy ..

/-- The pair one `insertStep` hands to the engine is exactly the
spec-prescribed physical pair for that extracted key. -/
lemma insertStep_trace (idx : IndexDetails) (s : Store) (obj pk k : Bytes)
    (ow : Bool) :
    (insertStep idx s obj pk k ow).2.2 = specPhysPair idx obj pk k := by
  unfold insertStep specPhysPair IndexDetails.insertPair
  split
  · simp
  · split
    · simp
    · simp

/-- Complete characterisation of the insert loop: either every put
succeeded — the trace covers every key and the store is the fold of all
steps — or some key's put rejected a duplicate, the loop stopped there,
and the store is exactly the fold of the preceding successful steps. -/
lemma insertLoop_spec (idx : IndexDetails) (obj pk : Bytes) (ow : Bool)
    (keys : List Bytes) :
    ∀ s : Store,
      ((insertLoop idx obj pk ow s keys).2.1 = OpResult.ok ∧
        (insertLoop idx obj pk ow s keys).2.2 =
          keys.map (specPhysPair idx obj pk) ∧
        (insertLoop idx obj pk ow s keys).1 = applyKeys idx obj pk ow s keys) ∨
      (∃ pre kf post, keys = pre ++ kf :: post ∧
        (insertLoop idx obj pk ow s keys).2.1 = OpResult.dupKey ∧
        (insertLoop idx obj pk ow s keys).2.2 =
          (pre ++ [kf]).map (specPhysPair idx obj pk) ∧
        (insertLoop idx obj pk ow s keys).1 = applyKeys idx obj pk ow s pre ∧
        (insertStep idx (applyKeys idx obj pk ow s pre) obj pk kf ow).2.1 =
          OpResult.dupKey) := by
  induction keys with
  | nil => exact fun s => Or.inl ⟨rfl, rfl, rfl⟩
  | cons k ks ih =>
    intro s
    rcases insertStep_dichotomy idx s obj pk k ow with hok | ⟨hdup, hst⟩
    · rcases ih (insertStep idx s obj pk k ow).1 with ⟨h1, h2, h3⟩ |
        ⟨pre, kf, post, he, h1, h2, h3, h4⟩
      · left
        refine ⟨?_, ?_, ?_⟩
        · simp only [insertLoop, if_pos hok]
          exact h1
        · simp only [insertLoop, if_pos hok, List.map_cons]
          rw [h2, insertStep_trace]
        · simp only [insertLoop, if_pos hok, applyKeys]
          exact h3
      · right
        refine ⟨k :: pre, kf, post, by simp [he], ?_, ?_, ?_, ?_⟩
        · simp only [insertLoop, if_pos hok]
          exact h1
        · simp only [insertLoop, if_pos hok, List.cons_append, List.map_cons]
          rw [h2, insertStep_trace]
        · simp only [insertLoop, if_pos hok, applyKeys]
          exact h3
        · simp only [applyKeys]
          exact h4
    · right
      have hcond : ¬((insertStep idx s obj pk k ow).2.1 = OpResult.ok) := by
        rw [hdup]
        decide
      refine ⟨[], k, ks, rfl, ?_, ?_, ?_, ?_⟩
      · simp only [insertLoop, if_neg hcond]
        exact hdup
      · simp only [insertLoop, if_neg hcond, List.nil_append,
          List.map_cons, List.map_nil]
        rw [insertStep_trace]
      · simp only [insertLoop, if_neg hcond, applyKeys]
        exact hst
      · simpa only [applyKeys] using hdup

/-- The delete loop always succeeds (the engine folds missing keys into
success) and deletes one physical key per extracted key. -/
lemma delLoop_spec (idx : IndexDetails) (pk : Bytes) (keys : List Bytes) :
    ∀ s : Store,
      (delLoop idx pk s keys).2.1 = OpResult.ok ∧
      (delLoop idx pk s keys).2.2 =
        keys.map (fun k => k ++ (if idx.idIndex then [] else pk)) := by
  induction keys with
  | nil => exact fun s => ⟨rfl, rfl⟩
  | cons k ks ih =>
    intro s
    have hcond :
        classifyDel (s.del (k ++ (if idx.idIndex then [] else pk))).2 =
          OpResult.ok := rfl
    rcases ih (s.del (k ++ (if idx.idIndex then [] else pk))).1 with ⟨h1, h2⟩
    refine ⟨?_, ?_⟩
    · simp only [delLoop, if_pos hcond]
      exact h1
    · simp only [delLoop, if_pos hcond, List.map_cons]
      rw [h2]

/-- A delete for a key the dictionary does not hold returns success and
leaves the dictionary unchanged. -/
lemma del_absent (s : Store) (k : Bytes) (h : s.containsKey k = false) :
    s.del k = (s, 0) := by
  have hall : ∀ e ∈ s.entries, ¬(e.1 = k) := by
    simpa [Store.containsKey, List.any_eq_false] using h
  have hfil : s.entries.filter (fun e => e.1 ≠ k) = s.entries := by
    apply List.filter_eq_self.mpr
    intro e he
    simpa using hall e he
  simp only [Store.del, hfil]

/-- Normal form of `IndexDetails.insert`: the loop runs on the incoming
store (marking multikey never touches the store), and the flag afterwards
is the old flag or-ed with whether more than one key was extracted. -/
lemma insert_eq (idx : IndexDetails) (st : IndexState) (obj pk : Bytes)
    (ow : Bool) :
    idx.insert st obj pk ow =
      (⟨(insertLoop idx obj pk ow st.store (idx.getKeys obj)).1,
          st.multikey || decide ((idx.getKeys obj).length > 1)⟩,
        (insertLoop idx obj pk ow st.store (idx.getKeys obj)).2.1,
        (insertLoop idx obj pk ow st.store (idx.getKeys obj)).2.2) := by
  unfold IndexDetails.insert
  by_cases h : (idx.getKeys obj).length > 1 <;> simp [h, markMultikey]

/-! ## Claim theorems -/

/-- C1: for every document, primary key and overwrite flag, when every put
succeeds, insert hands the engine exactly one `(physical key, value)` pair
per extracted key, and each pair follows the index kind: id index — the
encoded extracted key alone with the full document as value; clustering —
extracted-key bytes immediately followed by primary-key bytes with the
full document as value; ordinary secondary — extracted-key bytes
immediately followed by primary-key bytes with the empty value
(`specPhysPair` states the three kinds). -/
theorem insert_physical_pairs (idx : IndexDetails) (st : IndexState)
    (obj pk : Bytes) (ow : Bool)
    (h : (idx.insert st obj pk ow).2.1 = OpResult.ok) :
    (idx.insert st obj pk ow).2.2 =
      (idx.getKeys obj).map (specPhysPair idx obj pk) := by
  rcases insertLoop_spec idx obj pk ow (idx.getKeys obj)
      (if (idx.getKeys obj).length > 1 then markMultikey st else st).store with
    ⟨h1, h2, h3⟩ | ⟨pre, kf, post, he, h1, h2, h3, h4⟩
  · exact h2
  · exact absurd (h.symm.trans h1) (by decide)

/-- Witness for C1: an ordinary secondary index with two extracted keys;
both puts succeed, and the put trace is the two extracted keys each
followed by the primary-key bytes, with empty values. -/
theorem insert_physical_pairs_witness :
    ((IndexDetails.mk false false false (fun _ => [[1], [2]])).insert
        ⟨⟨[]⟩, false⟩ [9] [7] false).2.1 = OpResult.ok ∧
    ((IndexDetails.mk false false false (fun _ => [[1], [2]])).insert
        ⟨⟨[]⟩, false⟩ [9] [7] false).2.2 =
      [([1, 7], emptyBSONObj), ([2, 7], emptyBSONObj)] :=
  ⟨by decide,
    by
      rw [insert_physical_pairs (IndexDetails.mk false false false
        (fun _ => [[1], [2]])) ⟨⟨[]⟩, false⟩ [9] [7] false (by decide)]
      decide⟩

/-- C2: on a unique index with overwrite false, a put that finds the key
already present leaves the dictionary unchanged and is reported as the
recoverable duplicate-key error (`uassert 16433`); any other nonzero put
return code is classified fatal (`verify(r == 0)`), never silently
swallowed. -/
theorem insertPair_duplicate_key (idx : IndexDetails) (s : Store)
    (key : Bytes) (pk : Option Bytes) (val : Bytes)
    (hu : idx.unique = true)
    (hk : s.containsKey (key ++ pk.getD []) = true) :
    (idx.insertPair s key pk val false).1 = s ∧
    (idx.insertPair s key pk val false).2.1 = OpResult.dupKey ∧
    (∀ r : Int, r ≠ 0 → r ≠ DB_KEYEXIST → classifyPut r = OpResult.fatal) := by
  refine ⟨?_, ?_, ?_⟩
  · simp [IndexDetails.insertPair, Store.put, hu, hk]
  · simp [IndexDetails.insertPair, Store.put, hu, hk, classifyPut_keyexist]
  · intro r h0 hke
    simp [classifyPut, h0, hke]

/-- Witness for C2: a unique index whose dictionary already holds the
physical key `[1, 7]`; re-inserting it with overwrite false leaves the
store unchanged and reports the duplicate. -/
theorem insertPair_duplicate_key_witness :
    ((IndexDetails.mk true false false (fun _ => [[1]])).insertPair
        ⟨[([1, 7], [])]⟩ [1] (some [7]) [] false).1 = ⟨[([1, 7], [])]⟩ ∧
    ((IndexDetails.mk true false false (fun _ => [[1]])).insertPair
        ⟨[([1, 7], [])]⟩ [1] (some [7]) [] false).2.1 = OpResult.dupKey ∧
    classifyPut 5 = OpResult.fatal :=
  ⟨(insertPair_duplicate_key (IndexDetails.mk true false false
      (fun _ => [[1]])) ⟨[([1, 7], [])]⟩ [1] (some [7]) [] rfl (by decide)).1,
    (insertPair_duplicate_key (IndexDetails.mk true false false
      (fun _ => [[1]])) ⟨[([1, 7], [])]⟩ [1] (some [7]) [] rfl (by decide)).2.1,
    (insertPair_duplicate_key (IndexDetails.mk true false false
      (fun _ => [[1]])) ⟨[([1, 7], [])]⟩ [1] (some [7]) [] rfl
      (by decide)).2.2 5 (by decide) (by decide)⟩

/-- C3: deleteObject recomputes the key set from the document through the
same extraction call insert uses (`getKeysFromObject`, i.e. `getKeys`),
and for each extracted key deletes a physical key identical to the key
component of the pair built at insert time — extracted-key bytes followed
by primary-key bytes, except the id index which omits the primary key;
the whole delete succeeds, a delete of an absent key succeeds leaving the
dictionary unchanged, and any other nonzero delete return code is
classified fatal (`verify(r == 0)`). -/
theorem deleteObject_symmetric_keys (idx : IndexDetails) (st : IndexState)
    (pk obj : Bytes) :
    (idx.deleteObject st pk obj).2.2 =
      (idx.getKeys obj).map (fun k => (specPhysPair idx obj pk k).1) ∧
    (idx.deleteObject st pk obj).2.1 = OpResult.ok ∧
    (∀ (s : Store) (k : Bytes), s.containsKey k = false → s.del k = (s, 0)) ∧
    (∀ r : Int, r ≠ 0 → classifyDel r = OpResult.fatal) := by
  rcases delLoop_spec idx pk (idx.getKeys obj) st.store with ⟨h1, h2⟩
  have hfun : (fun k : Bytes => k ++ (if idx.idIndex then [] else pk)) =
      (fun k : Bytes => (specPhysPair idx obj pk k).1) := by
    funext k
    by_cases hid : idx.idIndex
    · simp [specPhysPair, hid]
    · by_cases hcl : idx.clustering <;> simp [specPhysPair, hid, hcl]
  refine ⟨?_, h1, del_absent, ?_⟩
  · rw [← hfun]
    exact h2
  · intro r h0
    simp [classifyDel, h0]

/-- Witness for C3: a non-id index over a one-key extraction; the delete
trace is the extracted key followed by the primary-key bytes, an absent
key deletes as a no-op, and a nonzero delete code is fatal. -/
theorem deleteObject_symmetric_keys_witness :
    ((IndexDetails.mk false false false (fun _ => [[1]])).deleteObject
        ⟨⟨[([1, 7], [])]⟩, false⟩ [7] [9]).2.2 = [[1, 7]] ∧
    Store.del ⟨[]⟩ [3] = (⟨[]⟩, 0) ∧
    classifyDel 5 = OpResult.fatal :=
  ⟨by
      rw [(deleteObject_symmetric_keys (IndexDetails.mk false false false
        (fun _ => [[1]])) ⟨⟨[([1, 7], [])]⟩, false⟩ [7] [9]).1]
      decide,
    (deleteObject_symmetric_keys (IndexDetails.mk false false false
      (fun _ => [[1]])) ⟨⟨[([1, 7], [])]⟩, false⟩ [7] [9]).2.2.1 ⟨[]⟩ [3] rfl,
    (deleteObject_symmetric_keys (IndexDetails.mk false false false
      (fun _ => [[1]])) ⟨⟨[([1, 7], [])]⟩, false⟩ [7] [9]).2.2.2 5 (by decide)⟩

/-- C4: the multikey flag after an insert is the old flag or-ed with
whether the extraction produced more than one key — so it is set during
any insert contributing more than one key (the catalog call happens
before the puts) and is never cleared by insert; the marking call is
idempotent; and deleteObject never touches the flag. -/
theorem multikey_monotone (idx : IndexDetails) (st : IndexState)
    (obj pk : Bytes) (ow : Bool) :
    (idx.insert st obj pk ow).1.multikey =
      (st.multikey || decide ((idx.getKeys obj).length > 1)) ∧
    markMultikey (markMultikey st) = markMultikey st ∧
    (idx.deleteObject st pk obj).1.multikey = st.multikey := by
  refine ⟨?_, rfl, rfl⟩
  show (if (idx.getKeys obj).length > 1 then markMultikey st else st).multikey = _
  by_cases h : (idx.getKeys obj).length > 1
  · simp [h, markMultikey]
  · simp [h]

/-- C9: a document whose extraction yields no keys makes insert a complete
no-op: no put is issued, the multikey flag is untouched, the store is
unchanged, and the call succeeds. -/
theorem insert_empty_keyset_noop (idx : IndexDetails) (st : IndexState)
    (obj pk : Bytes) (ow : Bool) (h : idx.getKeys obj = []) :
    idx.insert st obj pk ow = (st, OpResult.ok, []) := by
  simp [IndexDetails.insert, h, insertLoop]

/-- Witness for C9: an extractor producing no keys; insert returns the
state unchanged with an empty put trace. -/
theorem insert_empty_keyset_noop_witness :
    (IndexDetails.mk false false false (fun _ => [])).getKeys [9] = [] ∧
    (IndexDetails.mk false false false (fun _ => [])).insert
        ⟨⟨[([3], [4])]⟩, false⟩ [9] [7] true =
      (⟨⟨[([3], [4])]⟩, false⟩, OpResult.ok, []) :=
  ⟨rfl,
    insert_empty_keyset_noop (IndexDetails.mk false false false (fun _ => []))
      ⟨⟨[([3], [4])]⟩, false⟩ [9] [7] true rfl⟩

/-- C10: when an insert reports the duplicate-key error, the extracted key
list splits as `pre ++ kf :: post` where every key of `pre` was put
successfully, `kf` is the key whose put rejected a duplicate; the put
trace covers exactly `pre ++ [kf]` — nothing was issued for `post` — and
the final store is exactly the store left by the successful puts of
`pre`: the index layer undoes nothing itself. -/
theorem insert_stops_on_dup (idx : IndexDetails) (st : IndexState)
    (obj pk : Bytes) (ow : Bool)
    (h : (idx.insert st obj pk ow).2.1 = OpResult.dupKey) :
    ∃ pre kf post, idx.getKeys obj = pre ++ kf :: post ∧
      (idx.insert st obj pk ow).2.2 =
        (pre ++ [kf]).map (specPhysPair idx obj pk) ∧
      (idx.insert st obj pk ow).1.store = applyKeys idx obj pk ow st.store pre ∧
      (insertStep idx (applyKeys idx obj pk ow st.store pre) obj pk kf ow).2.1 =
        OpResult.dupKey := by
  rw [insert_eq] at h
  rcases insertLoop_spec idx obj pk ow (idx.getKeys obj) st.store with
    ⟨h1, h2, h3⟩ | ⟨pre, kf, post, he, h1, h2, h3, h4⟩
  · exact absurd (h1.symm.trans h) (by decide)
  · refine ⟨pre, kf, post, he, ?_, ?_, h4⟩
    · rw [insert_eq]
      exact h2
    · rw [insert_eq]
      exact h3

/-- Witness for C10: a unique index extracting two keys where the second
physical key is already present; insert stops at the second key with the
duplicate error, the trace covers both attempted keys only, and the first
key's put survives in the final store. -/
theorem insert_stops_on_dup_witness :
    ((IndexDetails.mk true false false (fun _ => [[1], [2]])).insert
        ⟨⟨[([2, 7], [])]⟩, false⟩ [9] [7] false).2.1 = OpResult.dupKey ∧
    (∃ pre kf post,
      (IndexDetails.mk true false false (fun _ => [[1], [2]])).getKeys [9] =
        pre ++ kf :: post ∧
      ((IndexDetails.mk true false false (fun _ => [[1], [2]])).insert
          ⟨⟨[([2, 7], [])]⟩, false⟩ [9] [7] false).2.2 =
        (pre ++ [kf]).map
          (specPhysPair (IndexDetails.mk true false false (fun _ => [[1], [2]]))
            [9] [7]) ∧
      ((IndexDetails.mk true false false (fun _ => [[1], [2]])).insert
          ⟨⟨[([2, 7], [])]⟩, false⟩ [9] [7] false).1.store =
        applyKeys (IndexDetails.mk true false false (fun _ => [[1], [2]]))
          [9] [7] false ⟨[([2, 7], [])]⟩ pre ∧
      (insertStep (IndexDetails.mk true false false (fun _ => [[1], [2]]))
          (applyKeys (IndexDetails.mk true false false (fun _ => [[1], [2]]))
            [9] [7] false ⟨[([2, 7], [])]⟩ pre) [9] [7] kf false).2.1 =
        OpResult.dupKey) :=
  ⟨by decide,
    insert_stops_on_dup (IndexDetails.mk true false false (fun _ => [[1], [2]]))
      ⟨⟨[([2, 7], [])]⟩, false⟩ [9] [7] false (by decide)⟩

/-- C5 counterexample: with `may_create` set and the dictionary already in
the environment, the open succeeds without creating anything
(`db_open` reports created = false), yet the constructor still registers
the namespace — refuting "registered exactly when the open actually
created the dictionary". -/
theorem open_registration_claim_cex :
    ¬(((openIndexDetails ⟨["x"]⟩ ⟨[]⟩ "x" true).2.2 = OpenResult.opened) →
      (((openIndexDetails ⟨["x"]⟩ ⟨[]⟩ "x" true).2.1.namespaces.contains "x"
          = true) ↔
        ((db_open ⟨["x"]⟩ "x" true).2.2 = true))) := by
  decide

/-- C5 amended: the constructor opens (or creates, when `may_create` is
set) the dictionary named by the index namespace; any open failure is
fatal and registers nothing; on success the namespace is registered with
the catalog exactly when the `may_create` flag was set — regardless of
whether the dictionary already existed; and the open actually creates the
dictionary exactly when it was missing and `may_create` was set. -/
theorem open_registration_amended (env : StoreEnv) (cat : Catalog)
    (name : String) (mc : Bool) :
    ((db_open env name mc).2.1 ≠ 0 →
      openIndexDetails env cat name mc =
        ((db_open env name mc).1, cat, OpenResult.fatal)) ∧
    ((db_open env name mc).2.1 = 0 →
      openIndexDetails env cat name mc =
        ((db_open env name mc).1,
          ⟨if mc then name :: cat.namespaces else cat.namespaces⟩,
          OpenResult.opened)) ∧
    (env.dicts.contains name = false → mc = true →
      (db_open env name mc).2.2 = true ∧
      (db_open env name mc).1.dicts.contains name = true) ∧
    (env.dicts.contains name = true → (db_open env name mc).2.2 = false) := by
  by_cases hmem : name ∈ env.dicts
  · refine ⟨?_, ?_, ?_, fun _ => by simp [db_open, hmem]⟩
    · intro h0
      exact absurd (by simp [db_open, hmem]) h0
    · intro _
      cases mc <;> simp [openIndexDetails, db_open, hmem]
    · intro hc
      exact absurd hc (by simp [hmem])
  · cases mc
    · refine ⟨?_, ?_, ?_, fun hc => absurd hc (by simp [hmem])⟩
      · intro _
        simp [openIndexDetails, db_open, hmem]
      · intro h0
        exact absurd h0 (by simp [db_open, hmem])
      · intro _ hc
        exact absurd hc (by simp)
    · refine ⟨?_, ?_, ?_, fun hc => absurd hc (by simp [hmem])⟩
      · intro h0
        exact absurd (by simp [db_open, hmem]) h0
      · intro _
        simp [openIndexDetails, db_open, hmem]
      · intro _ _
        simp [db_open, hmem]

/-- Witness for C5's amended claim: creating a missing dictionary
registers the namespace, and the open reports an actual creation. -/
theorem open_registration_amended_witness :
    openIndexDetails ⟨[]⟩ ⟨[]⟩ "x" true =
      (⟨["x"]⟩, ⟨["x"]⟩, OpenResult.opened) ∧
    (db_open ⟨[]⟩ "x" true).2.2 = true :=
  ⟨((open_registration_amended ⟨[]⟩ ⟨[]⟩ "x" true).2.1 (by decide)).trans
      (by decide),
    ((open_registration_amended ⟨[]⟩ ⟨[]⟩ "x" true).2.2.1 (by decide) rfl).1⟩

/-- C6: the drop path is an incomplete stub — `kill_idx` invalidates the
parent namespace's cached spec and then reaches an unconditional
`::abort()`; it never instructs the store to delete the dictionary and
never removes the catalog/metadata entry, contradicting the intended
three-step drop contract. -/
theorem kill_idx_incomplete_stub :
    kill_idx = [DropAction.invalidateCachedSpec, DropAction.processAbort] ∧
    ¬ DropAction.deleteDictionary ∈ kill_idx ∧
    ¬ DropAction.removeMetadataEntry ∈ kill_idx := by
  decide

/-- C7: building the spec from a definition whose key pattern has
`objsize() == 0` hits `verify(false)` — fatal, with no recoverable
result; any non-empty key pattern builds successfully, and the compiled
key pattern is exactly the definition's `key` field. -/
theorem indexSpec_reset_empty_fatal (info : SpecInfo) :
    (info.key.length = 0 → IndexSpec.reset info = none) ∧
    (info.key.length ≠ 0 → IndexSpec.reset info = some ⟨info, info.key⟩) := by
  constructor
  · intro h
    simp [IndexSpec.reset, h]
  · intro h
    simp [IndexSpec.reset, h]

/-- Witness for C7: the zero-size pattern aborts; a non-empty pattern
(the 5-byte encoding of `{}` is already non-empty at the byte level)
builds the spec carrying that pattern. -/
theorem indexSpec_reset_empty_fatal_witness :
    IndexSpec.reset ⟨[]⟩ = none ∧
    IndexSpec.reset ⟨[5, 0, 0, 0, 0]⟩ =
      some ⟨⟨[5, 0, 0, 0, 0]⟩, [5, 0, 0, 0, 0]⟩ :=
  ⟨(indexSpec_reset_empty_fatal ⟨[]⟩).1 rfl,
    (indexSpec_reset_empty_fatal ⟨[5, 0, 0, 0, 0]⟩).2 (by decide)⟩

/-- The scan of `keyPatternOffset`, generalised over the running counter:
it either falls off the end with `-1` and the name occurs nowhere, or it
returns the counter plus the position of the first matching field. -/
lemma keyPatternOffsetAux_spec (key : String) (fields : List String) :
    ∀ n : Nat,
      (keyPatternOffsetAux key fields n = -1 ∧ ¬ key ∈ fields) ∨
      (∃ i : Nat, keyPatternOffsetAux key fields n = ((n + i : Nat) : Int) ∧
        fields[i]? = some key ∧
        ∀ m : Nat, m < i → fields[m]? ≠ some key) := by
  induction fields with
  | nil =>
    intro n
    left
    exact ⟨rfl, by simp⟩
  | cons f fs ih =>
    intro n
    by_cases h : key = f
    · right
      refine ⟨0, ?_, ?_, ?_⟩
      · simp [keyPatternOffsetAux, h]
      · simp [h]
      · intro m hm
        exact absurd hm (Nat.not_lt_zero m)
    · rcases ih (n + 1) with ⟨h1, h2⟩ | ⟨i, h1, h2, h3⟩
      · left
        refine ⟨?_, ?_⟩
        · simp [keyPatternOffsetAux, h, h1]
        · simp [h, h2]
      · right
        refine ⟨i + 1, ?_, ?_, ?_⟩
        · simp only [keyPatternOffsetAux, if_neg h, h1]
          omega
        · simpa using h2
        · intro m hm
          cases m with
          | zero =>
            simp only [List.getElem?_cons_zero, ne_eq, Option.some_inj]
            exact fun hc => h hc.symm
          | succ m' =>
            simpa using h3 m' (by omega)

/-- C8: `keyPatternOffset` performs a linear scan of the key pattern's
field names — it returns `-1` exactly when no field has the given name;
when the name occurs, it returns a (nonnegative) position, and any
returned position holds the name while every earlier position does not. -/
theorem keyPatternOffset_linear_scan (fields : List String) (key : String) :
    (keyPatternOffset fields key = -1 ↔ ¬ key ∈ fields) ∧
    (key ∈ fields → ∃ n : Nat, keyPatternOffset fields key = (n : Int)) ∧
    (∀ n : Nat, keyPatternOffset fields key = (n : Int) →
      fields[n]? = some key ∧ ∀ m : Nat, m < n → fields[m]? ≠ some key) := by
  rcases keyPatternOffsetAux_spec key fields 0 with ⟨h1, h2⟩ | ⟨i, h1, h2, h3⟩
  · refine ⟨by simp [keyPatternOffset, h1, h2], ?_, ?_⟩
    · intro hmem
      exact absurd hmem h2
    · intro n hn
      rw [keyPatternOffset] at hn
      rw [h1] at hn
      exact absurd hn (by omega)
  · have h0 : keyPatternOffset fields key = (i : Int) := by
      rw [keyPatternOffset, h1]
      omega
    refine ⟨?_, ?_, ?_⟩
    · constructor
      · intro he
        rw [h0] at he
        exact absurd he (by omega)
      · intro hnm
        exact absurd (List.getElem?_mem h2) hnm
    · intro _
      exact ⟨i, h0⟩
    · intro n hn
      have hin : i = n := by
        have := h0.symm.trans hn
        exact_mod_cast this
      rw [← hin]
      exact ⟨h2, h3⟩

/-- Witness for C8: in the pattern `["a", "b"]` the name `"b"` is found
at position 1, position 1 holds `"b"`, and position 0 does not. -/
theorem keyPatternOffset_linear_scan_witness :
    keyPatternOffset ["a", "b"] "b" = (1 : Int) ∧
    (["a", "b"][1]? = some "b" ∧
      ∀ m : Nat, m < 1 → ["a", "b"][m]? ≠ some "b") :=
  ⟨by decide,
    (keyPatternOffset_linear_scan ["a", "b"] "b").2.2 1 (by decide)⟩

end MongoIndex
